import Mathlib

/-!
Shallow embedding of the analysis-and-validation pipeline of imageToUI:
color palette extraction (`src/services/imageAnalyzer.ts`), brand
identification scoring (`src/services/brandDatabase.ts`), pixel-level
comparison and quality aggregation (`src/services/uiValidator.ts`).

JavaScript numbers are modelled by exact arithmetic: integer-valued
quantities as `Nat`/`Int`, fractional ones as `Rat`, and quantities that
pass through `Math.sqrt` as `Real`.  `Math.round` (round half away from
zero; all rounded quantities here are nonnegative) is `jsRound` on `Rat`
and Mathlib `round` on `Real`; `Math.min` on `Rat` is `jsMin`.  Strings
are Lean `String`; `toLowerCase` is `lowerStr` (ASCII case mapping, which
agrees with JavaScript on every character appearing in the registry).
-/

namespace ImageToUI

/-- `Math.min` for exact rationals. -/
def jsMin (a b : ℚ) : ℚ := if a ≤ b then a else b

/-- `Math.round` for exact rationals (round half up; arguments here are
nonnegative, where JavaScript also rounds half up). -/
def jsRound (q : ℚ) : ℤ := (q + 1/2).floor

/-- `String.prototype.toLowerCase`, restricted to ASCII case mapping. -/
def lowerStr (s : String) : String := ⟨s.data.map Char.toLower⟩

/-- Stable insertion of a scored entry into a list sorted by descending
score: the new entry comes from earlier in the original list, so on equal
scores it is placed in front (matching the stable `Array.prototype.sort`
with comparator `(a, b) => b[1] - a[1]`). -/
def insertScoreDesc {α : Type} (x : α × ℕ) : List (α × ℕ) → List (α × ℕ)
  | [] => [x]
  | y :: ys => if y.2 ≤ x.2 then x :: y :: ys else y :: insertScoreDesc x ys

/-- Stable sort by descending score, as performed by
`Array.from(map.entries()).sort((a, b) => b[1] - a[1])`. -/
def sortScoreDesc {α : Type} : List (α × ℕ) → List (α × ℕ)
  | [] => []
  | x :: xs => insertScoreDesc x (sortScoreDesc xs)

/-- The first entry of maximal score, in list order (the entry a stable
descending sort puts first). -/
def firstArgmax {α : Type} : List (α × ℕ) → Option (α × ℕ)
  | [] => none
  | x :: xs =>
    match firstArgmax xs with
    | none => some x
    | some m => if x.2 < m.2 then some m else some x

/-! ### Regular-expression shapes used by the brand registry

Every regex in `setupBrandDetection` is either a literal string or of the
form `lit₁.?lit₂`.  Matching follows the JavaScript `String.match` with a
global regex: scan left to right, count non-overlapping matches, `.?`
greedy, `.` matching any character except a line terminator. -/

inductive BPat : Type
  | lit (s : String)
  | dotOpt (pre post : String)

/-- `.` in a JavaScript regex (without the `s` flag) matches any character
except a line terminator. -/
def dotMatches (c : Char) : Bool :=
  !(c = '\n' || c = '\r' || c.val = 0x2028 || c.val = 0x2029)

/-- Length of the match of `p` at the start of `h`, if any (greedy `.?`,
with zero-or-one-character backtracking, as in JavaScript). -/
def matchLenAt (p : BPat) (h : List Char) : Option ℕ :=
  match p with
  | .lit s => if h.take s.data.length = s.data then some s.data.length else none
  | .dotOpt a b =>
    if h.take a.data.length = a.data then
      match h.drop a.data.length with
      | [] => if b.data = [] then some a.data.length else none
      | c :: rest2 =>
        if dotMatches c ∧ rest2.take b.data.length = b.data then
          some (a.data.length + 1 + b.data.length)
        else if (c :: rest2).take b.data.length = b.data then
          some (a.data.length + b.data.length)
        else none
    else none

/-- Fuel-driven scan counting non-overlapping matches left to right; on a
match the scan resumes after it (an empty match advances one position, as
`lastIndex` does in JavaScript), otherwise it advances one character.
`fuel = h.length + 1` steps always suffice. -/
def countPatAux : ℕ → BPat → List Char → ℕ
  | 0, _, _ => 0
  | fuel + 1, p, h =>
    match matchLenAt p h with
    | some 0 =>
      match h with
      | [] => 1
      | _ :: t => 1 + countPatAux fuel p t
    | some (n + 1) => 1 + countPatAux fuel p (h.drop (n + 1))
    | none =>
      match h with
      | [] => 0
      | _ :: t => countPatAux fuel p t

/-- Number of matches of `p` in `text`, i.e. `(text.match(regex) || []).length`
for a global regex. -/
def countMatches (p : BPat) (text : List Char) : ℕ :=
  countPatAux (text.length + 1) p text

/-! ### Color Extractor (`ImageAnalyzer.extractColorPalette`)

The decode-and-downsample collaborator (`sharp(..).resize(50, 50).raw()`)
is outside the embedding; its output, the RGB samples of the downsampled
image, is the input here (the loop `for (let i = 0; i < data.length; i += 3)`
reads the raw buffer as consecutive RGB triples). -/

/-- Channel quantization `Math.round(c / 16) * 16` for a channel value
`c ≥ 0`; `(c + 8) / 16` is the Nat form of `Math.round(c / 16)`
(`quantize16_eq_round` below proves the two agree). -/
def quantize16 (c : ℕ) : ℕ := (c + 8) / 16 * 16

/-- The map key `rgb(${roundedR}, ${roundedG}, ${roundedB})`. -/
def rgbKey (s : ℕ × ℕ × ℕ) : String :=
  "rgb(" ++ toString (quantize16 s.1) ++ ", " ++ toString (quantize16 s.2.1)
    ++ ", " ++ toString (quantize16 s.2.2) ++ ")"

/-- `colorMap.set(color, (colorMap.get(color) || 0) + 1)`: a JavaScript
`Map` keeps the insertion position of an existing key and appends a new
key at the end. -/
def bumpCount (k : String) : List (String × ℕ) → List (String × ℕ)
  | [] => [(k, 1)]
  | (k2, n) :: rest =>
    if k2 = k then (k2, n + 1) :: rest else (k2, n) :: bumpCount k rest

/-- The frequency map accumulated over all samples, in insertion order. -/
def colorMapOf (samples : List (ℕ × ℕ × ℕ)) : List (String × ℕ) :=
  samples.foldl (fun m s => bumpCount (rgbKey s) m) []

/-- `Array.from(colorMap.entries()).sort((a, b) => b[1] - a[1]).slice(0, 5)`. -/
def paletteWithCounts (samples : List (ℕ × ℕ × ℕ)) : List (String × ℕ) :=
  (sortScoreDesc (colorMapOf samples)).take 5

/-- The returned palette: the top-5 color keys. -/
def extractColorPalette (samples : List (ℕ × ℕ × ℕ)) : List String :=
  (paletteWithCounts samples).map Prod.fst

/-- The fallback palette returned when decoding or sampling throws. -/
def fallbackPalette : List String :=
  ["#ffffff", "#000000", "#f0f0f0", "#333333", "#007bff"]

/-- Coverage fraction of a palette entry: its sample count over the total
number of samples. -/
def coverageOf (samples : List (ℕ × ℕ × ℕ)) (p : String × ℕ) : ℚ :=
  (p.2 : ℚ) / (samples.length : ℚ)

/-- A hex color string starts with a hash sign (necessary condition for
the "hex strings" format named by the spec). -/
def startsWithHash (s : String) : Prop := s.data.head? = some '#'

/-! ### Brand Identifier (`BrandDatabase.detectBrand`)

The static registry set up by `initializeBrands` / `setupBrandDetection`,
in insertion order (toss, kakao, naver). -/

/-- `this.brandKeywords` (keyword regexes are built with the `gi` flags). -/
def brandKeywords : List (String × List String) :=
  [("toss", ["toss", "토스", "viva republica", "비바리퍼블리카",
             "송금", "간편결제", "토스페이", "toss pay",
             "투자", "증권", "주식", "stock", "securities"]),
   ("kakao", ["kakao", "카카오", "kakaobank", "카카오뱅크",
              "kakaotalk", "카카오톡", "kakaopay", "카카오페이"]),
   ("naver", ["naver", "네이버", "line", "라인",
              "naver pay", "네이버페이", "webtoon", "웹툰"])]

/-- `this.brandPatterns`. -/
def brandPatterns : List (String × List BPat) :=
  [("toss", [.lit "toss", .lit "토스", .dotOpt "viva" "republica",
             .lit "#0064ff", .dotOpt "toss" "face"]),
   ("kakao", [.lit "kakao", .lit "카카오", .lit "#fee500", .lit "kakaoregular"]),
   ("naver", [.lit "naver", .lit "네이버", .lit "#03c75a", .dotOpt "noto" "sans"])]

/-- Primary, secondary and accent colors of `this.brands`. -/
def brandColors : List (String × (String × String × String)) :=
  [("toss", ("#0064FF", "#F5F7FA", "#FF6B35")),
   ("kakao", ("#FEE500", "#191919", "#FF6B35")),
   ("naver", ("#03C75A", "#F7F9FA", "#1EC800"))]

/-- Keyword contribution: `score += matches.length * 10` per keyword.  The
`i` flag is modelled by lowering the text (all registry keywords are
already lowercase). -/
def keywordScore (kws : List String) (text : List Char) : ℕ :=
  kws.foldl (fun acc kw => acc + countMatches (.lit (lowerStr kw)) text * 10) 0

/-- Pattern contribution: `score += matches.length * 15` per pattern. -/
def patternScore (pats : List BPat) (text : List Char) : ℕ :=
  pats.foldl (fun acc p => acc + countMatches p text * 15) 0

/-- Color contribution: `score += 25` for every palette entry whose
lowercased value is one of the profile colors, guarded by
`colorPalette.length > 0` and by the profile existing in `this.brands`. -/
def colorScore (name : String) (palette : List String) : ℕ :=
  if 0 < palette.length then
    match brandColors.lookup name with
    | none => 0
    | some (p, s, a) =>
      palette.foldl
        (fun acc c =>
          if lowerStr c = lowerStr p ∨ lowerStr c = lowerStr s ∨ lowerStr c = lowerStr a
          then acc + 25 else acc) 0
  else 0

/-- The accumulated score of one brand profile. -/
def brandScore (name : String) (kws : List String) (text : String)
    (palette : List String) : ℕ :=
  keywordScore kws (lowerStr text).data
    + patternScore ((brandPatterns.lookup name).getD []) (lowerStr text).data
    + colorScore name palette

/-- The `scores` map: profiles in registry order, zero scores excluded
(`if (score > 0) scores.set(brandName, score)`). -/
def positiveScores (text : String) (palette : List String) : List (String × ℕ) :=
  (brandKeywords.map fun bk => (bk.1, brandScore bk.1 bk.2 text palette)).filter
    fun p => 0 < p.2

structure BrandMatch where
  brand : Option String
  confidence : ℚ
  deriving DecidableEq

/-- `BrandDatabase.detectBrand`: pick the top entry of the stable
descending sort; `confidence = Math.min(topScore / 100, 1)`; the brand is
reported only when `confidence > 0.3`. -/
def detectBrand (text : String) (palette : List String) : BrandMatch :=
  let scores := positiveScores text palette
  if scores.isEmpty then ⟨none, 0⟩
  else
    match sortScoreDesc scores with
    | [] => ⟨none, 0⟩
    | top :: _ =>
      let confidence := jsMin ((top.2 : ℚ) / 100) 1
      ⟨if 3/10 < confidence then some top.1 else none, confidence⟩

/-- Spec-side: total number of keyword occurrences of a profile. -/
def keywordOccSum (kws : List String) (text : String) : ℕ :=
  (kws.map fun kw => countMatches (.lit (lowerStr kw)) (lowerStr text).data).sum

/-- Spec-side: total number of pattern occurrences of a profile. -/
def patternOccSum (name : String) (text : String) : ℕ :=
  (((brandPatterns.lookup name).getD []).map
    fun p => countMatches p (lowerStr text).data).sum

/-- Spec-side: number of candidate colors that match, case-insensitively,
one of the primary/secondary/accent colors of the profile. -/
def colorMatchCount (name : String) (palette : List String) : ℕ :=
  match brandColors.lookup name with
  | none => 0
  | some (p, s, a) =>
    palette.countP fun c =>
      lowerStr c = lowerStr p ∨ lowerStr c = lowerStr s ∨ lowerStr c = lowerStr a

/-! ### Quality Aggregator (`UIValidator.calculateOverallScore`,
`UIValidator.calculateConfidence`) -/

/-- The six-metric breakdown, fields in the key order of the object
literal built in `validateUI` (the order `Object.entries` and
`Object.values` iterate in). -/
structure Breakdown where
  visualSimilarity : ℚ
  layoutAccuracy : ℚ
  colorMatching : ℚ
  typographyMatch : ℚ
  interactionElements : ℚ
  brandConsistency : ℚ

/-- `UIValidator.calculateOverallScore`: weighted sum over
`Object.entries(breakdown)` with the fixed weight table, then
`Math.round(totalScore / totalWeight)`. -/
def calculateOverallScore (b : Breakdown) : ℤ :=
  let entries : List (ℚ × ℚ) :=
    [(b.visualSimilarity, 0.25), (b.layoutAccuracy, 0.20),
     (b.colorMatching, 0.15), (b.typographyMatch, 0.15),
     (b.interactionElements, 0.15), (b.brandConsistency, 0.10)]
  let totalScore := entries.foldl (fun acc e => acc + e.1 * e.2) 0
  let totalWeight := entries.foldl (fun acc e => acc + e.2) 0
  jsRound (totalScore / totalWeight)

/-- `Object.values(breakdown)` in key order. -/
def scoresOf (b : Breakdown) : List ℚ :=
  [b.visualSimilarity, b.layoutAccuracy, b.colorMatching,
   b.typographyMatch, b.interactionElements, b.brandConsistency]

/-- `scores.reduce((a, b) => a + b, 0) / scores.length`. -/
def averageOf (b : Breakdown) : ℚ :=
  (scoresOf b).foldl (· + ·) 0 / ((scoresOf b).length : ℚ)

/-- `scores.reduce((a, b) => a + Math.pow(b - average, 2), 0) / scores.length`. -/
def varianceOf (b : Breakdown) : ℚ :=
  (scoresOf b).foldl (fun a s => a + (s - averageOf b) ^ 2) 0
    / ((scoresOf b).length : ℚ)

/-- `Math.sqrt(variance)`. -/
noncomputable def stddevOf (b : Breakdown) : ℝ :=
  Real.sqrt ((varianceOf b : ℚ) : ℝ)

/-- `UIValidator.calculateConfidence`:
`Math.round(Math.max(0, 100 - standardDeviation))`. -/
noncomputable def calculateConfidence (b : Breakdown) : ℤ :=
  round (max 0 (100 - stddevOf b))

/-! ### Pixel Comparator (`UIValidator.comparePixelLevel`)

Decoding (`Jimp.read`) and resizing (`resize(width, height)`) are
collaborators; `comparePixelLevel` takes the resize operation as a
parameter and the loop is modelled over the common `min`-dimensions. -/

/-- A decoded raster image: dimensions plus an RGB pixel accessor
(`Jimp.intToRGBA(img.getPixelColor(x, y))`, alpha unused by the loop). -/
structure RasterImage where
  width : ℕ
  height : ℕ
  pixel : ℕ → ℕ → ℕ × ℕ × ℕ

inductive DiffKind : Type
  | color | structural | missing | extra
  deriving DecidableEq

/-- One recorded difference; `sqDist` is the squared RGB distance of the
pixel pair (the code stores `severity = Math.min(diff / 255, 1)` with
`diff = Math.sqrt(sqDist)`; see `severityOf`). -/
structure ImageDifference where
  x : ℕ
  y : ℕ
  w : ℕ
  h : ℕ
  kind : DiffKind
  sqDist : ℤ
  deriving DecidableEq

/-- Squared Euclidean RGB distance of a pixel pair; the code compares
`Math.sqrt` of this against the threshold 30, equivalently this against
`900`. -/
def pixelDist2 (p q : ℕ × ℕ × ℕ) : ℤ :=
  ((q.1 : ℤ) - p.1) ^ 2 + ((q.2.1 : ℤ) - p.2.1) ^ 2 + ((q.2.2 : ℤ) - p.2.2) ^ 2

/-- `severity: Math.min(diff / 255, 1)`. -/
noncomputable def severityOf (d : ImageDifference) : ℝ :=
  min (Real.sqrt (d.sqDist : ℝ) / 255) 1

/-- The double loop `for (let y ...) for (let x ...)` in row-major order. -/
def scanCoords (w h : ℕ) : List (ℕ × ℕ) :=
  (List.range h).flatMap fun y => (List.range w).map fun x => (x, y)

def pixelDiffAt (a b : RasterImage) (xy : ℕ × ℕ) : ℤ :=
  pixelDist2 (a.pixel xy.1 xy.2) (b.pixel xy.1 xy.2)

def mkDifference (xy : ℕ × ℕ) (d2 : ℤ) : ImageDifference :=
  ⟨xy.1, xy.2, 1, 1, .color, d2⟩

/-- One iteration of the collection loop:
`if (diff > threshold && differences.length < 100) differences.push(...)`. -/
def diffStep (a b : RasterImage) (acc : List ImageDifference) (xy : ℕ × ℕ) :
    List ImageDifference :=
  if 900 < pixelDiffAt a b xy ∧ acc.length < 100
  then acc ++ [mkDifference xy (pixelDiffAt a b xy)] else acc

/-- The collected differences, with the final `differences.slice(0, 100)`. -/
def collectDifferences (a b : RasterImage) (w h : ℕ) : List ImageDifference :=
  ((scanCoords w h).foldl (diffStep a b) []).take 100

/-- `totalDifference`, accumulated over every pixel pair (the region cap
does not stop this accumulation). -/
noncomputable def totalDifference (a b : RasterImage) (w h : ℕ) : ℝ :=
  ((scanCoords w h).map fun xy => Real.sqrt (pixelDiffAt a b xy : ℝ)).sum

/-- `maxPossibleDifference = pixelCount * 255 * Math.sqrt(3)`. -/
noncomputable def maxPossibleDifference (w h : ℕ) : ℝ :=
  ((w * h : ℕ) : ℝ) * 255 * Real.sqrt 3

structure PixelComparisonResult where
  similarity : ℝ
  differences : List ImageDifference

/-- The comparison loop on two already-aligned images of common
dimensions: `similarity = Math.max(0, 1 - totalDifference / maxPossibleDifference)`. -/
noncomputable def comparePixels (a b : RasterImage) (w h : ℕ) : PixelComparisonResult :=
  ⟨max 0 (1 - totalDifference a b w h / maxPossibleDifference w h),
   collectDifferences a b w h⟩

/-- `UIValidator.comparePixelLevel` on two decoded images: both are
resized to the smaller of the two dimension pairs, then compared. -/
noncomputable def comparePixelLevel (resize : RasterImage → ℕ → ℕ → RasterImage)
    (a b : RasterImage) : PixelComparisonResult :=
  let w := min a.width b.width
  let h := min a.height b.height
  comparePixels (resize a w h) (resize b w h) w h

/-- The decode-failure fallback: `{ similarity: 0.5, differences: [] }`. -/
noncomputable def fallbackComparison : PixelComparisonResult := ⟨1/2, []⟩

/-- A resize collaborator that leaves the image unchanged (what resizing
to the image's own dimensions does). -/
def idResize : RasterImage → ℕ → ℕ → RasterImage := fun img _ _ => img

/-- A solid one-color image. -/
def solidImage (w h : ℕ) (c : ℕ × ℕ × ℕ) : RasterImage := ⟨w, h, fun _ _ => c⟩

/-- Concrete 2×1 image pair whose two pixel differences are 40 and 255:
both exceed the threshold, and the scan meets the milder one first. -/
def cexOriginal : RasterImage := ⟨2, 1, fun _ _ => (0, 0, 0)⟩

def cexRendered : RasterImage := ⟨2, 1, fun x _ => if x = 0 then (0, 0, 40) else (0, 0, 255)⟩

/-! ## Bridging lemmas -/

theorem ratFloor_eq_intFloor (q : ℚ) : q.floor = ⌊q⌋ := by
  rw [Rat.floor_def' q, Rat.floor_def]

theorem jsRound_eq_round (q : ℚ) : jsRound q = round q := by
  rw [jsRound, ratFloor_eq_intFloor, round_eq]

theorem jsMin_eq_min (a b : ℚ) : jsMin a b = min a b := by
  rw [jsMin, min_def]

/-- The Nat form of the quantization agrees with the literal
`Math.round(c / 16) * 16` of the source. -/
theorem quantize16_eq_round (c : ℕ) :
    (quantize16 c : ℤ) = jsRound ((c : ℚ) / 16) * 16 := by
  rw [jsRound_eq_round, round_eq]
  have h1 : (c : ℚ) / 16 + 1 / 2 = ((c + 8 : ℕ) : ℚ) / ((16 : ℕ) : ℚ) := by
    push_cast; ring
  rw [quantize16, h1, Rat.floor_natCast_div_natCast]
  push_cast [Int.ofNat_ediv]
  ring

/-! ## Lemmas on the stable descending sort -/

theorem insertScoreDesc_perm {α : Type} (x : α × ℕ) (l : List (α × ℕ)) :
    List.Perm (insertScoreDesc x l) (x :: l) := by
  induction l with
  | nil => rfl
  | cons y ys ih =>
    rw [insertScoreDesc]
    split
    · rfl
    · exact ((ih.cons y).trans (List.Perm.swap x y ys)).symm.symm

theorem sortScoreDesc_perm {α : Type} (l : List (α × ℕ)) :
    List.Perm (sortScoreDesc l) l := by
  induction l with
  | nil => rfl
  | cons x xs ih => exact (insertScoreDesc_perm x (sortScoreDesc xs)).trans (ih.cons x)

/-- Scores are non-increasing along the insertion result, provided they
were along the input. -/
theorem insertScoreDesc_sorted {α : Type} (x : α × ℕ) (l : List (α × ℕ))
    (hl : l.Pairwise (fun p q => q.2 ≤ p.2)) :
    (insertScoreDesc x l).Pairwise (fun p q => q.2 ≤ p.2) := by
  induction l with
  | nil => simp [insertScoreDesc]
  | cons y ys ih =>
    rw [insertScoreDesc]
    rcases List.pairwise_cons.mp hl with ⟨hy, hys⟩
    split
    · next hle =>
      refine List.pairwise_cons.mpr ⟨?_, hl⟩
      intro p hp
      rcases hp with _ | hp
      · exact hle
      · exact (hy p (by assumption)).trans hle
    · next hgt =>
      refine List.pairwise_cons.mpr ⟨?_, ih hys⟩
      intro p hp
      rcases List.mem_cons.mp ((insertScoreDesc_perm x ys).mem_iff.mp hp) with rfl | hp2
      · exact le_of_not_le hgt
      · exact hy p hp2

theorem sortScoreDesc_sorted {α : Type} (l : List (α × ℕ)) :
    (sortScoreDesc l).Pairwise (fun p q => q.2 ≤ p.2) := by
  induction l with
  | nil => simp [sortScoreDesc]
  | cons x xs ih => exact insertScoreDesc_sorted x (sortScoreDesc xs) ih

/-- The head of the stable descending sort is the first entry of maximal
score, in original list order. -/
theorem sortScoreDesc_head {α : Type} (l : List (α × ℕ)) :
    (sortScoreDesc l).head? = firstArgmax l := by
  induction l with
  | nil => rfl
  | cons x xs ih =>
    rw [sortScoreDesc, firstArgmax, ← ih]
    cases h : sortScoreDesc xs with
    | nil => simp [insertScoreDesc]
    | cons y ys =>
      rw [insertScoreDesc]
      split
      · next hle =>
        simp only [List.head?_cons, Option.some.injEq]
        rw [if_neg (by omega)]
      · next hgt =>
        simp only [List.head?_cons, Option.some.injEq]
        rw [if_pos (by omega)]

/-! ## Lemmas on the brand scoring folds -/

theorem foldl_add_mul {α : Type} (f : α → ℕ) (c : ℕ) (l : List α) :
    ∀ init : ℕ, l.foldl (fun acc x => acc + f x * c) init = init + (l.map f).sum * c := by
  induction l with
  | nil => intro init; simp
  | cons x xs ih =>
    intro init
    rw [List.foldl_cons, ih, List.map_cons, List.sum_cons]
    ring

theorem foldl_add_if {α : Type} (p : α → Prop) [DecidablePred p] (c : ℕ) (l : List α) :
    ∀ init : ℕ,
      l.foldl (fun acc x => if p x then acc + c else acc) init
        = init + l.countP (fun x => decide (p x)) * c := by
  induction l with
  | nil => intro init; simp
  | cons x xs ih =>
    intro init
    rw [List.foldl_cons, List.countP_cons]
    by_cases hx : p x
    · simp only [hx, if_pos, decide_eq_true_eq, ih]; ring
    · simp only [hx, if_neg, decide_eq_true_eq, ih, not_false_eq_true]; ring

theorem keywordScore_eq (kws : List String) (t : List Char) :
    keywordScore kws t = (kws.map fun kw => countMatches (.lit (lowerStr kw)) t).sum * 10 := by
  rw [keywordScore, foldl_add_mul (fun kw => countMatches (.lit (lowerStr kw)) t) 10, Nat.zero_add]

theorem patternScore_eq (pats : List BPat) (t : List Char) :
    patternScore pats t = (pats.map fun p => countMatches p t).sum * 15 := by
  rw [patternScore, foldl_add_mul (fun p => countMatches p t) 15, Nat.zero_add]

theorem colorScore_eq (name : String) (palette : List String) :
    colorScore name palette = colorMatchCount name palette * 25 := by
  rw [colorScore, colorMatchCount]
  by_cases hp : 0 < palette.length
  · rw [if_pos hp]
    cases h : brandColors.lookup name with
    | none => rfl
    | some v =>
      obtain ⟨p, s, a⟩ := v
      dsimp only
      rw [foldl_add_if
        (fun c => lowerStr c = lowerStr p ∨ lowerStr c = lowerStr s ∨ lowerStr c = lowerStr a)
        25 palette 0, Nat.zero_add]
  · rw [if_neg hp]
    have : palette = [] := List.length_eq_zero.mp (by omega)
    subst this
    cases brandColors.lookup name with
    | none => rfl
    | some v => obtain ⟨p, s, a⟩ := v; rfl

/-- The accumulated score of a profile is exactly the weighted sum of the
claim: 10 per keyword occurrence, 15 per pattern occurrence, 25 per
matching candidate color. -/
theorem brandScore_formula (name : String) (kws : List String) (text : String)
    (palette : List String) :
    brandScore name kws text palette
      = 10 * keywordOccSum kws text + 15 * patternOccSum name text
        + 25 * colorMatchCount name palette := by
  rw [brandScore, keywordScore_eq, patternScore_eq, colorScore_eq,
    keywordOccSum, patternOccSum]
  ring

/-! ## Claims C4, C5, C6 — Brand Identifier -/

/-- C4: every profile scores 10 per keyword occurrence, 15 per pattern
occurrence and 25 per case-insensitively matching candidate color; the
first profile (in registry insertion order) attaining the maximal
positive score is selected, with confidence `min(score / 100, 1)` (the
brand name being reported when the confidence clears the 0.3 threshold). -/
theorem detectBrand_top (text : String) (palette : List String) (best : String × ℕ)
    (hbest : firstArgmax (positiveScores text palette) = some best) :
    (∀ nk ∈ brandKeywords,
      brandScore nk.1 nk.2 text palette
        = 10 * keywordOccSum nk.2 text + 15 * patternOccSum nk.1 text
          + 25 * colorMatchCount nk.1 palette)
    ∧ detectBrand text palette
        = ⟨if 3/10 < jsMin ((best.2 : ℚ) / 100) 1 then some best.1 else none,
           jsMin ((best.2 : ℚ) / 100) 1⟩ := by
  constructor
  · intro nk _
    exact brandScore_formula nk.1 nk.2 text palette
  · have hhead : (sortScoreDesc (positiveScores text palette)).head? = some best := by
      rw [sortScoreDesc_head]; exact hbest
    have hne : (positiveScores text palette).isEmpty = false := by
      cases hsc : positiveScores text palette with
      | nil => rw [hsc] at hbest; simp [firstArgmax] at hbest
      | cons a l => rfl
    cases hs : sortScoreDesc (positiveScores text palette) with
    | nil => rw [hs] at hhead; simp at hhead
    | cons top rest =>
      rw [hs] at hhead
      simp only [List.head?_cons, Option.some.injEq] at hhead
      subst hhead
      simp only [detectBrand, hne, Bool.false_eq_true, if_false, hs]

/-- Witness for C4 at text `"toss"` and an empty palette: the toss profile
scores 25 (one keyword and one pattern occurrence), below the threshold. -/
theorem detectBrand_top_witness : detectBrand "toss" [] = ⟨none, 1/4⟩ := by
  have h := (detectBrand_top "toss" [] ("toss", 25) (by decide)).2
  rw [h]
  have h1 : jsMin (((25 : ℕ) : ℚ) / 100) 1 = 1/4 := by
    rw [jsMin, if_pos (by norm_num)]; norm_num
  rw [h1, if_neg (by norm_num)]

/-- C5: on the text `"toss payment app"` with palette
`["#0064FF", "#F5F7FA"]`, the detected brand is `"toss"` with
confidence at least 0.5 (it is exactly 0.85). -/
theorem detectBrand_toss_scenario :
    (detectBrand "toss payment app" ["#0064FF", "#F5F7FA"]).brand = some "toss"
    ∧ (1 : ℚ)/2 ≤ (detectBrand "toss payment app" ["#0064FF", "#F5F7FA"]).confidence := by
  have h : positiveScores "toss payment app" ["#0064FF", "#F5F7FA"] = [("toss", 85)] := by
    decide
  have hj : jsMin (((85 : ℕ) : ℚ) / 100) 1 = 17/20 := by
    rw [jsMin, if_pos (by norm_num)]; norm_num
  have hs : sortScoreDesc [("toss", (85 : ℕ))] = [("toss", 85)] := rfl
  simp only [detectBrand, h, hs, List.isEmpty_cons, Bool.false_eq_true, if_false, hj]
  rw [if_pos (by norm_num)]
  exact ⟨rfl, by norm_num⟩

/-- C6: a null brand is returned when no profile scores positively (with
confidence 0), and whenever the confidence is at most 0.3; empty text and
empty palette produce the null match with confidence 0. -/
theorem detectBrand_null_cases :
    (∀ text palette, (∀ nk ∈ brandKeywords, brandScore nk.1 nk.2 text palette = 0) →
        detectBrand text palette = ⟨none, 0⟩)
    ∧ (∀ text palette, (detectBrand text palette).confidence ≤ 3/10 →
        (detectBrand text palette).brand = none)
    ∧ detectBrand "" [] = ⟨none, 0⟩ := by
  refine ⟨?_, ?_, ?_⟩
  · intro text palette h
    have hps : positiveScores text palette = [] := by
      rw [positiveScores, List.filter_eq_nil_iff]
      intro p hp
      rcases List.mem_map.mp hp with ⟨nk, hnk, rfl⟩
      simp [h nk hnk]
    simp [detectBrand, hps]
  · intro text palette hconf
    by_cases hemp : (positiveScores text palette).isEmpty
    · simp [detectBrand, hemp]
    · rw [Bool.not_eq_true] at hemp
      cases hs : sortScoreDesc (positiveScores text palette) with
      | nil =>
        simp [detectBrand, hemp, hs]
      | cons top rest =>
        have heq : detectBrand text palette
            = ⟨if 3/10 < jsMin ((top.2 : ℚ) / 100) 1 then some top.1 else none,
               jsMin ((top.2 : ℚ) / 100) 1⟩ := by
          simp only [detectBrand, hemp, Bool.false_eq_true, if_false, hs]
        rw [heq] at hconf ⊢
        exact if_neg (not_lt.mpr hconf)
  · have hps : positiveScores "" [] = [] := by decide
    simp [detectBrand, hps]

/-- Witness for C6 at empty text and empty palette: confidence 0 is below
the threshold and the brand is null. -/
theorem detectBrand_null_cases_witness : (detectBrand "" []).brand = none := by
  apply detectBrand_null_cases.2.1 "" []
  have hps : positiveScores "" [] = [] := by decide
  simp only [detectBrand, hps, List.isEmpty_nil, if_true]
  norm_num

/-! ## Claims C1, C9 — Quality Aggregator -/

theorem jsRound_eq_of (q : ℚ) (n : ℤ) (h1 : (n : ℚ) ≤ q + 1/2)
    (h2 : q + 1/2 < (n : ℚ) + 1) : jsRound q = n := by
  rw [jsRound, ratFloor_eq_intFloor]
  exact Int.floor_eq_iff.mpr ⟨h1, h2⟩

/-- Shared evaluation: the scenario breakdown has weighted sum 86.75 and
rounds to 87. -/
theorem overallScore_scenario_eval :
    calculateOverallScore ⟨85, 90, 85, 80, 85, 100⟩ = 87 := by
  have h : calculateOverallScore ⟨85, 90, 85, 80, 85, 100⟩ = jsRound ((347 : ℚ)/4) := by
    rw [calculateOverallScore]
    norm_num [List.foldl_cons, List.foldl_nil]
  rw [h]
  exact jsRound_eq_of _ 87 (by norm_num) (by norm_num)

/-- C1 (counterexample): the scenario breakdown does not aggregate to 86. -/
theorem overallScore_scenario_ne_86 :
    calculateOverallScore ⟨85, 90, 85, 80, 85, 100⟩ ≠ 86 := by
  rw [overallScore_scenario_eval]
  decide

/-- C1 (amended): the weighted sum of the scenario breakdown is
0.25·85 + 0.20·90 + 0.15·85 + 0.15·80 + 0.15·85 + 0.10·100 = 86.75, and the
aggregated overall score is its rounding 87. -/
theorem overallScore_scenario :
    calculateOverallScore ⟨85, 90, 85, 80, 85, 100⟩ = 87 :=
  overallScore_scenario_eval

theorem averageOf_const (v : ℚ) : averageOf ⟨v, v, v, v, v, v⟩ = v := by
  rw [averageOf, scoresOf]
  simp only [List.foldl_cons, List.foldl_nil, List.length_cons, List.length_nil]
  push_cast
  ring

theorem varianceOf_const (v : ℚ) : varianceOf ⟨v, v, v, v, v, v⟩ = 0 := by
  rw [varianceOf, averageOf_const, scoresOf]
  norm_num

theorem stddevOf_const (v : ℚ) : stddevOf ⟨v, v, v, v, v, v⟩ = 0 := by
  rw [stddevOf, varianceOf_const]
  push_cast
  exact Real.sqrt_zero

/-- C9 (counterexample): on the breakdown (80, 80, 80, 81, 81, 81) the
standard deviation is 0.5, the unrounded value 100 − 0.5 = 99.5, but the
code reports the rounded confidence 100. -/
theorem confidence_not_unrounded :
    ((calculateConfidence ⟨80, 80, 80, 81, 81, 81⟩ : ℤ) : ℝ)
      ≠ max 0 (100 - stddevOf ⟨80, 80, 80, 81, 81, 81⟩) := by
  have ha : averageOf ⟨80, 80, 80, 81, 81, 81⟩ = 161/2 := by
    rw [averageOf, scoresOf]
    norm_num
  have hv : varianceOf ⟨80, 80, 80, 81, 81, 81⟩ = 1/4 := by
    rw [varianceOf, ha, scoresOf]
    norm_num
  have hsd : stddevOf ⟨80, 80, 80, 81, 81, 81⟩ = 1/2 := by
    rw [stddevOf, hv, show (((1 : ℚ)/4 : ℚ) : ℝ) = (1/2)^2 by norm_num]
    exact Real.sqrt_sq (by norm_num)
  have hmax : max (0 : ℝ) (100 - 1/2) = 199/2 := by
    rw [max_eq_right (by norm_num)]
    norm_num
  have hc : calculateConfidence ⟨80, 80, 80, 81, 81, 81⟩ = 100 := by
    rw [calculateConfidence, hsd, hmax, show (199 : ℝ)/2 = ((199 : ℚ) : ℝ)/2 by norm_num,
      round_eq]
    rw [show ((199 : ℚ) : ℝ)/2 + 1/2 = ((100 : ℤ) : ℝ) by push_cast; ring]
    exact Int.floor_intCast 100
  rw [hc, hsd, hmax]
  norm_num

/-- C9 (amended): the reported confidence is the rounding of
max(0, 100 − stddev), hence within 1/2 of the unrounded value; when all
six sub-scores are equal the standard deviation is 0 and the confidence
is exactly 100. -/
theorem confidence_rounds :
    (∀ b : Breakdown, |(calculateConfidence b : ℝ) - max 0 (100 - stddevOf b)| ≤ 1/2)
    ∧ ∀ v : ℚ, calculateConfidence ⟨v, v, v, v, v, v⟩ = 100 := by
  constructor
  · intro b
    rw [calculateConfidence, abs_sub_comm]
    exact abs_sub_round (max 0 (100 - stddevOf b))
  · intro v
    rw [calculateConfidence, stddevOf_const]
    rw [show max (0 : ℝ) (100 - 0) = ((100 : ℤ) : ℝ) by norm_num]
    exact round_intCast 100

/-! ## Lemmas on the pixel comparison loop -/

/-- The capped collection fold records exactly the first
`100 - acc.length` threshold-exceeding coordinates, in scan order. -/
theorem diffFold_eq (a b : RasterImage) :
    ∀ (l : List (ℕ × ℕ)) (acc : List ImageDifference), acc.length ≤ 100 →
      l.foldl (diffStep a b) acc
        = acc ++ ((l.filter fun xy => decide (900 < pixelDiffAt a b xy)).map
            fun xy => mkDifference xy (pixelDiffAt a b xy)).take (100 - acc.length) := by
  intro l
  induction l with
  | nil => intro acc _; simp
  | cons xy rest ih =>
    intro acc hacc
    rw [List.foldl_cons, diffStep]
    by_cases hpass : 900 < pixelDiffAt a b xy
    · by_cases hlen : acc.length < 100
      · rw [if_pos ⟨hpass, hlen⟩, ih (acc ++ [mkDifference xy (pixelDiffAt a b xy)])
          (by simp; omega)]
        rw [List.filter_cons_of_pos (by simpa using hpass), List.map_cons]
        rw [show 100 - acc.length = (100 - (acc ++ [mkDifference xy (pixelDiffAt a b xy)]).length) + 1
          by simp; omega]
        rw [List.take_succ_cons, List.append_assoc]
        rfl
      · rw [if_neg (by tauto), ih acc hacc]
        have h100 : acc.length = 100 := by omega
        rw [h100]
        simp
    · rw [if_neg (by tauto), ih acc hacc, List.filter_cons_of_neg (by simpa using hpass)]

/-- `collectDifferences` is the first 100 threshold-exceeding pixel pairs
in row-major scan order. -/
theorem collectDifferences_eq (a b : RasterImage) (w h : ℕ) :
    collectDifferences a b w h
      = (((scanCoords w h).filter fun xy => decide (900 < pixelDiffAt a b xy)).map
          fun xy => mkDifference xy (pixelDiffAt a b xy)).take 100 := by
  rw [collectDifferences, diffFold_eq a b (scanCoords w h) [] (by simp)]
  simp [List.take_take]

/-- C2 (amended): the difference regions are the threshold-exceeding pixel
pairs in row-major scan order, capped at the first 100 — the sequence is
ordered by pixel position, not by severity. -/
theorem differences_scan_order (a b : RasterImage) (w h : ℕ) :
    (comparePixels a b w h).differences
      = (((scanCoords w h).filter fun xy => decide (900 < pixelDiffAt a b xy)).map
          fun xy => mkDifference xy (pixelDiffAt a b xy)).take 100 :=
  collectDifferences_eq a b w h

/-- C2 (counterexample): on the concrete 2×1 pair the first recorded
region has severity 40/255 and the second severity 1, so the returned
sequence is not ordered by non-increasing severity. -/
theorem differences_not_severity_sorted :
    ¬ List.Chain' (fun s t => t ≤ s)
      (((comparePixelLevel idResize cexOriginal cexRendered).differences).map severityOf) := by
  have hd : (comparePixelLevel idResize cexOriginal cexRendered).differences
      = [mkDifference (0, 0) 1600, mkDifference (1, 0) 65025] := by decide
  rw [hd]
  simp only [List.map_cons, List.map_nil, List.chain'_cons, List.chain'_singleton, and_true]
  intro hle
  have h1 : severityOf (mkDifference (0, 0) 1600) = 40/255 := by
    rw [severityOf, mkDifference]
    rw [show (((1600 : ℤ)) : ℝ) = 40^2 by norm_num, Real.sqrt_sq (by norm_num)]
    rw [min_eq_left (by norm_num)]
  have h2 : severityOf (mkDifference (1, 0) 65025) = 1 := by
    rw [severityOf, mkDifference]
    rw [show (((65025 : ℤ)) : ℝ) = 255^2 by norm_num, Real.sqrt_sq (by norm_num)]
    norm_num
  rw [h1, h2] at hle
  norm_num at hle

/-- C7: comparing any decoded image against itself yields similarity
exactly 1 and no difference regions (whatever the resize collaborator
does, both operands are the same resized image). -/
theorem comparePixelLevel_self (resize : RasterImage → ℕ → ℕ → RasterImage)
    (a : RasterImage) (_hw : 0 < a.width) (_hh : 0 < a.height) :
    comparePixelLevel resize a a = ⟨1, []⟩ := by
  rw [comparePixelLevel]
  have hzero : ∀ r : RasterImage, ∀ xy : ℕ × ℕ, pixelDiffAt r r xy = 0 := by
    intro r xy
    rw [pixelDiffAt, pixelDist2]
    ring
  set r := resize a (min a.width a.width) (min a.height a.height) with hr
  rw [comparePixels]
  have hcol : collectDifferences r r (min a.width a.width) (min a.height a.height) = [] := by
    rw [collectDifferences_eq]
    rw [List.filter_eq_nil_iff.mpr (by intro xy _; simp [hzero])]
    simp
  have htot : totalDifference r r (min a.width a.width) (min a.height a.height) = 0 := by
    rw [totalDifference]
    apply List.sum_eq_zero
    intro x hx
    rcases List.mem_map.mp hx with ⟨xy, _, rfl⟩
    rw [hzero]
    simp [Real.sqrt_zero]
  rw [hcol, htot, zero_div, sub_zero]
  simp only [PixelComparisonResult.mk.injEq]
  exact ⟨max_eq_right zero_le_one, trivial⟩

/-- Witness for C7: two 100×100 solid-white images compare to similarity
1 with zero regions. -/
theorem comparePixelLevel_self_witness :
    comparePixelLevel idResize (solidImage 100 100 (255, 255, 255))
      (solidImage 100 100 (255, 255, 255)) = ⟨1, []⟩ :=
  comparePixelLevel_self idResize (solidImage 100 100 (255, 255, 255))
    (by decide) (by decide)

/-- C8: for decoded images the similarity is clamped into [0, 1] and at
most 100 difference regions are returned; the decode-failure fallback
(similarity 0.5, no regions) satisfies the same bounds. -/
theorem comparePixelLevel_bounds (resize : RasterImage → ℕ → ℕ → RasterImage)
    (a b : RasterImage) (haw : 0 < a.width) (hah : 0 < a.height)
    (hbw : 0 < b.width) (hbh : 0 < b.height) :
    (0 ≤ (comparePixelLevel resize a b).similarity
      ∧ (comparePixelLevel resize a b).similarity ≤ 1
      ∧ (comparePixelLevel resize a b).differences.length ≤ 100)
    ∧ (0 ≤ fallbackComparison.similarity ∧ fallbackComparison.similarity ≤ 1
        ∧ fallbackComparison.differences.length ≤ 100) := by
  constructor
  · rw [comparePixelLevel, comparePixels]
    refine ⟨le_max_left 0 _, max_le (by norm_num) ?_, ?_⟩
    · apply sub_le_self
      apply div_nonneg
      · rw [totalDifference]
        apply List.sum_nonneg
        intro x hx
        rcases List.mem_map.mp hx with ⟨xy, _, rfl⟩
        exact Real.sqrt_nonneg _
      · rw [maxPossibleDifference]
        positivity
    · show (collectDifferences _ _ _ _).length ≤ 100
      rw [collectDifferences]
      exact List.length_take_le 100 _
  · refine ⟨by rw [fallbackComparison]; norm_num, by rw [fallbackComparison]; norm_num, ?_⟩
    rw [fallbackComparison]
    simp

/-- Witness for C8 at two concrete 2×2 solid images. -/
theorem comparePixelLevel_bounds_witness :
    0 ≤ (comparePixelLevel idResize (solidImage 2 2 (255, 255, 255))
          (solidImage 2 2 (0, 0, 0))).similarity
    ∧ (comparePixelLevel idResize (solidImage 2 2 (255, 255, 255))
          (solidImage 2 2 (0, 0, 0))).similarity ≤ 1
    ∧ (comparePixelLevel idResize (solidImage 2 2 (255, 255, 255))
          (solidImage 2 2 (0, 0, 0))).differences.length ≤ 100 :=
  (comparePixelLevel_bounds idResize (solidImage 2 2 (255, 255, 255))
    (solidImage 2 2 (0, 0, 0)) (by decide) (by decide) (by decide) (by decide)).1

/-! ## Lemmas on the color frequency map -/

theorem bumpCount_ne_nil (k : String) (m : List (String × ℕ)) : bumpCount k m ≠ [] := by
  cases m with
  | nil => simp [bumpCount]
  | cons p rest =>
    obtain ⟨k2, n⟩ := p
    rw [bumpCount]
    split <;> simp

theorem foldl_bump_ne_nil (l : List (ℕ × ℕ × ℕ)) :
    ∀ m : List (String × ℕ), m ≠ [] →
      l.foldl (fun m s => bumpCount (rgbKey s) m) m ≠ [] := by
  induction l with
  | nil => intro m hm; exact hm
  | cons s rest ih =>
    intro m _
    rw [List.foldl_cons]
    exact ih _ (bumpCount_ne_nil (rgbKey s) m)

theorem colorMapOf_ne_nil (samples : List (ℕ × ℕ × ℕ)) (h : samples ≠ []) :
    colorMapOf samples ≠ [] := by
  cases samples with
  | nil => exact absurd rfl h
  | cons s rest =>
    rw [colorMapOf, List.foldl_cons]
    exact foldl_bump_ne_nil rest _ (bumpCount_ne_nil (rgbKey s) [])

theorem bumpCount_sum (k : String) (m : List (String × ℕ)) :
    ((bumpCount k m).map Prod.snd).sum = (m.map Prod.snd).sum + 1 := by
  induction m with
  | nil => simp [bumpCount]
  | cons p rest ih =>
    obtain ⟨k2, n⟩ := p
    rw [bumpCount]
    split
    · simp; omega
    · simp only [List.map_cons, List.sum_cons, ih]
      omega

theorem foldl_bump_sum (l : List (ℕ × ℕ × ℕ)) :
    ∀ m : List (String × ℕ),
      (((l.foldl (fun m s => bumpCount (rgbKey s) m) m).map Prod.snd).sum)
        = (m.map Prod.snd).sum + l.length := by
  induction l with
  | nil => intro m; simp
  | cons s rest ih =>
    intro m
    rw [List.foldl_cons, ih (bumpCount (rgbKey s) m), bumpCount_sum]
    simp
    omega

/-- The counts in the frequency map total the number of samples. -/
theorem colorMapOf_sum (samples : List (ℕ × ℕ × ℕ)) :
    ((colorMapOf samples).map Prod.snd).sum = samples.length := by
  rw [colorMapOf, foldl_bump_sum]
  simp

theorem bumpCount_key (k : String) (m : List (String × ℕ)) :
    ∀ p ∈ bumpCount k m, p.1 = k ∨ p.1 ∈ m.map Prod.fst := by
  induction m with
  | nil => intro p hp; simp [bumpCount] at hp; simp [hp]
  | cons q rest ih =>
    obtain ⟨k2, n⟩ := q
    intro p hp
    rw [bumpCount] at hp
    split at hp
    · rcases List.mem_cons.mp hp with rfl | hp2
      · next heq => left; exact heq
      · right; simp [List.mem_map]; right; exact ⟨p.2, by simpa using hp2⟩
    · rcases List.mem_cons.mp hp with rfl | hp2
      · right; simp
      · rcases ih p hp2 with h | h
        · left; exact h
        · right; simp only [List.map_cons, List.mem_cons]; right; exact h

theorem foldl_bump_key (l : List (ℕ × ℕ × ℕ)) :
    ∀ m : List (String × ℕ), ∀ p ∈ l.foldl (fun m s => bumpCount (rgbKey s) m) m,
      (∃ s ∈ l, p.1 = rgbKey s) ∨ p.1 ∈ m.map Prod.fst := by
  induction l with
  | nil => intro m p hp; right; exact List.mem_map_of_mem Prod.fst hp
  | cons s rest ih =>
    intro m p hp
    rw [List.foldl_cons] at hp
    rcases ih (bumpCount (rgbKey s) m) p hp with ⟨s2, hs2, hk⟩ | hk
    · exact Or.inl ⟨s2, List.mem_cons_of_mem s hs2, hk⟩
    · rcases List.mem_map.mp hk with ⟨q, hq, hqk⟩
      rcases bumpCount_key (rgbKey s) m q hq with h | h
      · exact Or.inl ⟨s, List.mem_cons_self s rest, by rw [← hqk, h]⟩
      · right; rw [← hqk]; exact h

/-- Every key in the frequency map is the rgb() key of some sample. -/
theorem colorMapOf_key (samples : List (ℕ × ℕ × ℕ)) :
    ∀ p ∈ colorMapOf samples, ∃ s ∈ samples, p.1 = rgbKey s := by
  intro p hp
  rcases foldl_bump_key samples [] p hp with h | h
  · exact h
  · simp at h

theorem sum_map_div (l : List (String × ℕ)) (L : ℚ) :
    (l.map fun p => (p.2 : ℚ) / L).sum = ((l.map Prod.snd).sum : ℚ) / L := by
  induction l with
  | nil => simp
  | cons p rest ih =>
    simp only [List.map_cons, List.sum_cons, ih]
    push_cast
    rw [div_add_div_same]

/-! ## Claims C3, C10 — Color Extractor -/

/-- C3 (amended): for a nonempty sample list the extractor returns
between 1 and 5 colors, ordered by non-increasing frequency, each of them
an `rgb(r, g, b)` key of a quantized sample (not a hex string); each
coverage count/totalSamples lies in [0, 1] and the coverages sum to at
most 1. -/
theorem extractColorPalette_spec (samples : List (ℕ × ℕ × ℕ)) (hne : samples ≠ []) :
    1 ≤ (paletteWithCounts samples).length
    ∧ (paletteWithCounts samples).length ≤ 5
    ∧ (paletteWithCounts samples).Pairwise (fun p q => q.2 ≤ p.2)
    ∧ (∀ c ∈ extractColorPalette samples, ∃ s ∈ samples, c = rgbKey s)
    ∧ (∀ p ∈ paletteWithCounts samples,
        0 ≤ coverageOf samples p ∧ coverageOf samples p ≤ 1)
    ∧ ((paletteWithCounts samples).map (coverageOf samples)).sum ≤ 1 := by
  have hperm := sortScoreDesc_perm (colorMapOf samples)
  have hlen0 : 0 < samples.length := List.length_pos.mpr hne
  have hlenq : (0 : ℚ) < (samples.length : ℚ) := by exact_mod_cast hlen0
  have hmem : ∀ p ∈ paletteWithCounts samples, p ∈ colorMapOf samples := by
    intro p hp
    exact hperm.mem_iff.mp (List.take_subset 5 _ hp)
  have hcount : ∀ p ∈ paletteWithCounts samples, p.2 ≤ samples.length := by
    intro p hp
    rw [← colorMapOf_sum samples]
    exact List.single_le_sum (by intro x _; omega) p.2
      (List.mem_map_of_mem Prod.snd (hmem p hp))
  refine ⟨?_, ?_, ?_, ?_, ?_, ?_⟩
  · rw [paletteWithCounts, List.length_take]
    have h1 : colorMapOf samples ≠ [] := colorMapOf_ne_nil samples hne
    have h2 : sortScoreDesc (colorMapOf samples) ≠ [] := by
      intro h0
      apply h1
      have hx := hperm.symm
      rw [h0] at hx
      exact List.Perm.eq_nil hx
    have := List.length_pos.mpr h2
    omega
  · rw [paletteWithCounts, List.length_take]
    omega
  · exact (sortScoreDesc_sorted (colorMapOf samples)).sublist (List.take_sublist 5 _)
  · intro c hc
    rcases List.mem_map.mp hc with ⟨p, hp, rfl⟩
    exact colorMapOf_key samples p (hmem p hp)
  · intro p hp
    constructor
    · exact div_nonneg (by positivity) (le_of_lt hlenq)
    · rw [coverageOf, div_le_one hlenq]
      exact_mod_cast hcount p hp
  · unfold coverageOf
    rw [sum_map_div, div_le_one hlenq]
    have hsplit := List.sum_take_add_sum_drop
      ((sortScoreDesc (colorMapOf samples)).map Prod.snd) 5
    have htake : ((paletteWithCounts samples).map Prod.snd).sum
        ≤ ((sortScoreDesc (colorMapOf samples)).map Prod.snd).sum := by
      rw [paletteWithCounts, ← List.map_take] at *
      omega
    have hperm2 : ((sortScoreDesc (colorMapOf samples)).map Prod.snd).sum
        = ((colorMapOf samples).map Prod.snd).sum :=
      (hperm.map Prod.snd).sum_eq
    rw [← colorMapOf_sum samples]
    exact_mod_cast le_trans htake (le_of_eq hperm2)

/-- Witness for C3 at one solid-white sample: a single palette entry with
coverage 1. -/
theorem extractColorPalette_spec_witness :
    1 ≤ (paletteWithCounts [(255, 255, 255)]).length
    ∧ (paletteWithCounts [(255, 255, 255)]).length ≤ 5 :=
  ⟨(extractColorPalette_spec [(255, 255, 255)] (by decide)).1,
   (extractColorPalette_spec [(255, 255, 255)] (by decide)).2.1⟩

/-- C3 (counterexample): the palette of a solid-white sample is the
single string `rgb(256, 256, 256)`, which is not a hex color string. -/
theorem extractColorPalette_not_hex :
    extractColorPalette [(255, 255, 255)] = ["rgb(256, 256, 256)"]
    ∧ ¬ startsWithHash "rgb(256, 256, 256)" :=
  ⟨by decide, by rw [startsWithHash]; decide⟩

/-- C10: quantization sends every channel value in [248, 255] to 256, so
a solid-white image yields the out-of-range palette entry
`rgb(256, 256, 256)`. -/
theorem quantize16_overflow :
    (∀ c : ℕ, 248 ≤ c → c ≤ 255 → quantize16 c = 256)
    ∧ extractColorPalette [(255, 255, 255)] = ["rgb(256, 256, 256)"] := by
  constructor
  · intro c h1 h2
    interval_cases c <;> rfl
  · decide

/-- Witness for C10 at channel value 255. -/
theorem quantize16_overflow_witness :
    quantize16 255 = 256
    ∧ extractColorPalette [(255, 255, 255)] = ["rgb(256, 256, 256)"] :=
  ⟨quantize16_overflow.1 255 (by decide) (by decide), quantize16_overflow.2⟩

end ImageToUI

